import Mathlib

/- Shallow embedding of the MiskOS kernel core: scheduler (Scheduler.cpp),
   VFS (VFS.cpp), Ext2 directory scan (Ext2.cpp), ELF loader (ELFLoader.cpp)
   and the syscall dispatch entry (InterruptHandlers.cpp), translated from the
   C++ sources.  Machine integers are modelled as Nat, with an explicit
   `% 2 ^ 64` where two's-complement wrap-around matters.  Kernel assertions
   (Assert/KAssert) and Panic are modelled with `Except String`, the `.error`
   case being a halted kernel. -/

namespace MiskOS

/-- Scheduling states of a task.  Scheduler.h is not under src/; the four
states and their use are taken from Scheduler.cpp and the spec's data model. -/
inductive TaskState where
  | Normal
  | Blocked
  | WaitingForChild
  | Zombie
deriving DecidableEq

/-- The interrupt frame pushed by the ISR stub (include/Task.h). All fields
are 64-bit registers, modelled as Nat. -/
structure InterruptFrame where
  es : Nat := 0
  ds : Nat := 0
  r15 : Nat := 0
  r14 : Nat := 0
  r13 : Nat := 0
  r12 : Nat := 0
  r11 : Nat := 0
  r10 : Nat := 0
  r9 : Nat := 0
  r8 : Nat := 0
  rdi : Nat := 0
  rsi : Nat := 0
  rbp : Nat := 0
  rdx : Nat := 0
  rcx : Nat := 0
  rbx : Nat := 0
  rax : Nat := 0
  interruptNumber : Nat := 0
  errorCode : Nat := 0
  rip : Nat := 0
  cs : Nat := 0
  rflags : Nat := 0
  rsp : Nat := 0
  ss : Nat := 0
deriving DecidableEq

/-- A task (Scheduler.cpp's view of struct Task; the VFS/paging/allocator
handles are not needed by the claims about the scheduler and are modelled
in the fork operation separately). `syscallStackAddr` is the top-of-stack
pointer handed to the TSS, `syscallStackBottom` the lowest address of the
task's own 12 KiB system-call stack. -/
structure Task where
  pid : Nat := 0
  state : TaskState := .Normal
  frame : InterruptFrame := {}
  syscallStackAddr : Nat := 0
  syscallStackBottom : Nat := 0
deriving DecidableEq

/-- A pending timer entry ({milliseconds, unblockOnExpire, pid}). -/
structure TimerEntry where
  milliseconds : Nat
  unblockOnExpire : Bool
  pid : Nat
deriving DecidableEq

/-- Per-CPU scheduler state: the running task, the restoreFrame flag, the run
queue (taskQueue, modelled as an ordered list per the spec's "ordered
sequence"; Vector.h is not under src/), the timer entries, the currently
armed LAPIC one-shot duration, the idle task and the PID counter. -/
structure SchedState where
  currentTask : Task
  restoreFrame : Bool
  taskQueue : List Task
  timerEntries : List TimerEntry
  currentTimerTime : Nat
  idleTask : Task
  nextPid : Nat
deriving DecidableEq

/-- Byte memory of the kernel's higher-half window, as a total map from
address to byte value. -/
def Mem : Type := Nat → Nat

/-- MemCopy (Memory.cpp:12-21): copy count bytes from source to
destination. -/
def MemCopy (destination source count : Nat) (mem : Mem) : Mem :=
  fun a =>
    if destination ≤ a ∧ a < destination + count then mem (source + (a - destination))
    else mem a

/-- HigherHalf (Memory.cpp:23-26). -/
def HigherHalf (physAddr : Nat) : Nat := physAddr + 0xffff800000000000

/-- Segment selectors and initial RFLAGS (SegmentSelectors.h is not under
src/; the concrete values are immaterial to every claim, only the
user/kernel distinction CreateTask makes is kept). -/
def KERNEL_CODE_SEGMENT : Nat := 0x08

def KERNEL_DATA_SEGMENT : Nat := 0x10

def USER_CODE_SEGMENT : Nat := 0x1b

def USER_DATA_SEGMENT : Nat := 0x23

def INITIAL_RFLAGS : Nat := 0x202

/-- SYSCALL_STACK_PAGE_COUNT * 0x1000 (Scheduler.cpp:16,37): each task's
12 KiB system-call stack. -/
def SYSCALL_STACK_SIZE : Nat := 3 * 0x1000

namespace Scheduler

/-- Scheduler::Unblock (Scheduler.cpp:161-170): find the first task with the
given pid (GetTask panics when absent), assert it is Blocked, set it back to
Normal.  The saved frame is not touched. -/
def Unblock : List Task → Nat → Except String (List Task)
  | [], _ => .error "Panic: GetTask could not find the task."
  | t :: rest, pid =>
    if t.pid = pid then
      if t.state = TaskState.Blocked then
        .ok ({ t with state := TaskState.Normal } :: rest)
      else
        .error "Assert failed: task.state == TaskState::Blocked"
    else
      match Unblock rest pid with
      | .error e => .error e
      | .ok rest' => .ok (t :: rest')

/-- Scheduler::Unsuspend (Scheduler.cpp:172-182): find the first task with the
given pid, assert it is Blocked or WaitingForChild, store the supplied return
value in the saved frame's rax, and set the state back to Normal. -/
def Unsuspend : List Task → Nat → Nat → Except String (List Task)
  | [], _, _ => .error "Panic: GetTask could not find the task."
  | t :: rest, pid, returnValue =>
    if t.pid = pid then
      if t.state = TaskState.Blocked ∨ t.state = TaskState.WaitingForChild then
        .ok ({ t with state := TaskState.Normal,
                      frame := { t.frame with rax := returnValue } } :: rest)
      else
        .error "Assert failed: task.state is Blocked or WaitingForChild"
    else
      match Unsuspend rest pid returnValue with
      | .error e => .error e
      | .ok rest' => .ok (t :: rest')

/-- The backward loop of Scheduler::UpdateTimerEntries (Scheduler.cpp:129-146):
indices are visited from the last down to 0; an entry whose remaining time is
≤ deltaTime is popped from the vector, after Unblock(pid) when its
unblockOnExpire flag is set (with the source's Assert that pid ≠ 0); any other
entry is decremented in place.  The recursion processes the tail (the higher
indices) first, exactly like the backward loop.  Returns the run queue after
the Unblock calls together with the surviving entries. -/
def UpdateLoop (delta : Nat) (queue : List Task) :
    List TimerEntry → Except String (List Task × List TimerEntry)
  | [] => .ok (queue, [])
  | e :: rest =>
    match UpdateLoop delta queue rest with
    | .error msg => .error msg
    | .ok (q1, rest') =>
      if e.milliseconds ≤ delta then
        if e.unblockOnExpire then
          if e.pid = 0 then .error "Assert failed: timerEntry.pid != 0"
          else
            match Unblock q1 e.pid with
            | .error msg => .error msg
            | .ok q2 => .ok (q2, rest')
        else .ok (q1, rest')
      else .ok (q1, { e with milliseconds := e.milliseconds - delta } :: rest')

/-- Scheduler::UpdateTimerEntries (Scheduler.cpp:123-147).  `remaining` is
lapic->GetTimeRemainingMilliseconds(); deltaTime = currentTimerTime −
remaining after the source's Assert(currentTimerTime > remainingTime). -/
def UpdateTimerEntries (st : SchedState) (remaining : Nat) :
    Except String (List Task × List TimerEntry) :=
  if st.currentTimerTime ≤ remaining then
    .error "Assert failed: currentTimerTime > remainingTime"
  else
    UpdateLoop (st.currentTimerTime - remaining) st.taskQueue st.timerEntries

/-- The scan of Scheduler::ConfigureTimerClosestExpiry (Scheduler.cpp:107-121):
closestTime starts at 100 ms and is lowered to every strictly smaller entry;
the result is what the LAPIC one-shot is armed with (and what
currentTimerTime is set to). -/
def ClosestExpiry (entries : List TimerEntry) : Nat :=
  entries.foldl
    (fun closest e => if e.milliseconds < closest then e.milliseconds else closest) 100

/-- The task-selection loop of Scheduler::SwitchToNextTask
(Scheduler.cpp:70-78).  The C++ loop has no break: every Normal task it
examines is popped from the vector and assigned to currentTask, and because
Pop(i) shifts the later elements down while i is still incremented, the
element sliding into the popped slot is never examined (it stays in the
queue).  The recursion mirrors this exactly: on a Normal head the following
element is kept unexamined and the scan continues behind it; the returned
task is the last Normal one examined, and every other examined Normal task
has been popped and dropped. -/
def SelectLoop : List Task → List Task × Option Task
  | [] => ([], none)
  | t :: rest =>
    if t.state = TaskState.Normal then
      match rest with
      | [] => ([], some t)
      | u :: rest' =>
        let (q, c) := SelectLoop rest'
        (u :: q, some (c.getD t))
    else
      let (q, c) := SelectLoop rest
      (t :: q, c)

/-- Scheduler::SwitchToNextTask (Scheduler.cpp:58-93): update the timer
entries (this also performs the expiry Unblock calls), push the outgoing
task with its freshly saved frame unless restoreFrame was false, run the
selection loop, fall back to the idle task when nothing Normal was found,
arm the LAPIC one-shot with the closest expiry, and write the selected
task's saved frame out to *interruptFrame (the returned frame).  The TSS
system-call-stack reload and the CR3 address-space switch have no
observable effect on the modelled state. -/
def SwitchToNextTask (st : SchedState) (remaining : Nat) (frame : InterruptFrame) :
    Except String (SchedState × InterruptFrame) :=
  match UpdateTimerEntries st remaining with
  | .error msg => .error msg
  | .ok (q0, entries') =>
    let q1 := if st.restoreFrame then q0 ++ [{ st.currentTask with frame := frame }] else q0
    let (q2, sel) := SelectLoop q1
    let cur := match sel with
      | some t => t
      | none => st.idleTask
    .ok ({ st with currentTask := cur,
                   restoreFrame := sel.isSome,
                   taskQueue := q2,
                   timerEntries := entries',
                   currentTimerTime := ClosestExpiry entries' }, cur.frame)

/-- CreateTask (Scheduler.cpp:21-49).  physBase is the fresh 3-page physical
block RequestPageFrames returns (the frame allocator is outside the core);
pid is the value drawn from the atomic counter when setPid is passed
(threaded from SchedState.nextPid by the callers).  The task's system-call
stack top is HigherHalf(physBase + 12 KiB) and its bottom is 12 KiB below. -/
def CreateTask (physBase pid entry stackPtr : Nat) (userTask : Bool) : Task :=
  let syscallStack := HigherHalf (physBase + SYSCALL_STACK_SIZE)
  { pid := pid
    state := TaskState.Normal
    frame := { cs := if userTask then USER_CODE_SEGMENT else KERNEL_CODE_SEGMENT
               ds := if userTask then USER_DATA_SEGMENT else KERNEL_DATA_SEGMENT
               ss := if userTask then USER_DATA_SEGMENT else KERNEL_DATA_SEGMENT
               es := if userTask then USER_DATA_SEGMENT else KERNEL_DATA_SEGMENT
               rflags := INITIAL_RFLAGS
               rip := entry
               rsp := stackPtr }
    syscallStackAddr := syscallStack
    syscallStackBottom := syscallStack - SYSCALL_STACK_SIZE }

/-- Scheduler::ForkCurrentTask (Scheduler.cpp:252-274).  The address-space,
VFS and userspace-allocator deep copies touch no state the claims observe;
childPhysBase is the block RequestPageFrames hands CreateTask for the
child's own system-call stack.  The child's frame is the parent's interrupt
frame with rax := 0; the parent's system-call stack is byte-copied onto the
child's stack pages; then (source line 267) the child's syscallStackAddr is
overwritten with the PARENT's stack-top pointer; the child is pushed on the
run queue and the child's pid is returned to the parent. -/
def ForkCurrentTask (st : SchedState) (mem : Mem) (frame : InterruptFrame)
    (childPhysBase : Nat) : SchedState × Mem × Nat :=
  let child0 := CreateTask childPhysBase st.nextPid 0 0 true
  let child1 := { child0 with frame := { frame with rax := 0 } }
  let mem' := MemCopy child1.syscallStackBottom st.currentTask.syscallStackBottom
      SYSCALL_STACK_SIZE mem
  let child := { child1 with syscallStackAddr := st.currentTask.syscallStackAddr }
  ({ st with taskQueue := st.taskQueue ++ [child], nextPid := st.nextPid + 1 },
   mem', child.pid)

end Scheduler

/-- A VNode as VFS.cpp holds it: a copied name and an inode number. -/
structure VNode where
  name : List Char
  inodeNum : Nat
deriving DecidableEq

/-- The per-inode state the VFS claims observe (Ext2Inode.h is not under
src/): the type/permissions word, the low size field size0, the content
bytes, and — for directories — the listing GetDirectoryListing produces,
abstracted to the (name, inodeNum) VNodes TraversePath iterates over. -/
structure Ext2Inode where
  typePermissions : Nat := 0
  size0 : Nat := 0
  data : Nat → Nat := fun _ => 0
  dirListing : List VNode := []

/-- The Ext2 file-system state: the inode store (GetInode's pointers are
modelled as indices into it) and the next free inode number of the
inode-usage bitmap. -/
structure Ext2FS where
  inodes : Nat → Ext2Inode
  nextFreeInode : Nat

/-- Modelled from the spec: Ext2Inode::Read's byte count (the Ext2Inode
implementation is not under src/).  Reads stop at the inode size: min(count,
size0 − offset) bytes are transferred, 0 when the offset is at or past the
size. -/
def inodeReadCount (inode : Ext2Inode) (count offset : Nat) : Nat :=
  if offset < inode.size0 then min count (inode.size0 - offset) else 0

/-- Modelled from the spec: Ext2Inode::Write (not under src/).  Writes count
bytes at offset — a null source buffer, as passed by RepositionOffset's gap
write, writes zeroes — and extends size0 to offset+count when updateSize is
set and the write ends past the current size; the gap write passes
updateSize = false and leaves size0 alone. -/
def inodeWrite (inode : Ext2Inode) (src : Option (Nat → Nat)) (count offset : Nat)
    (updateSize : Bool) : Ext2Inode :=
  { inode with
    data := fun i =>
      if offset ≤ i ∧ i < offset + count then
        match src with
        | some f => f (i - offset)
        | none => 0
      else inode.data i
    size0 :=
      if updateSize ∧ inode.size0 < offset + count then offset + count
      else inode.size0 }

/-- A file descriptor ({present, offset, vNode}), VFS.cpp's FileDescriptor. -/
structure FileDescriptor where
  present : Bool := false
  offset : Nat := 0
  vNode : Option VNode := none
deriving DecidableEq

/-- VFSSeekType (Set / Cursor / End). -/
inductive VFSSeekType where
  | SeekSet
  | SeekCursor
  | SeekEnd
deriving DecidableEq

/-- RepositionOffset (VFS.cpp:57-78): apply the seek, then — whenever the new
offset lies strictly past size0 — zero-fill the gap through
inode->Write(0, offset − size0, size0, false), a null-buffer write that does
not update the size.  Returns the updated descriptor, the updated inode and
the offset the function returns. -/
def RepositionOffset (fd : FileDescriptor) (inode : Ext2Inode) (offset : Nat)
    (seekType : VFSSeekType) : FileDescriptor × Ext2Inode × Nat :=
  let newOffset :=
    match seekType with
    | .SeekSet => offset
    | .SeekCursor => fd.offset + offset
    | .SeekEnd => inode.size0 + offset
  let fd' := { fd with offset := newOffset }
  let inode' :=
    if inode.size0 < newOffset then
      inodeWrite inode none (newOffset - inode.size0) inode.size0 false
    else inode
  (fd', inode', newOffset)

/-- VFS Write (VFS.cpp:164-173): delegate to the inode write at the
descriptor's offset (all count bytes are transferred, per the spec's write
model) and advance the offset by the transferred count with a SeekCursor
reposition.  Returns the descriptor, the inode and the byte count. -/
def VFSWrite (fd : FileDescriptor) (inode : Ext2Inode) (buf : Nat → Nat)
    (count : Nat) : FileDescriptor × Ext2Inode × Nat :=
  let inode1 := inodeWrite inode (some buf) count fd.offset true
  let r := RepositionOffset fd inode1 count .SeekCursor
  (r.1, r.2.1, count)

/-- VFS Read (VFS.cpp:153-162): read from the inode at the descriptor's
offset and advance the offset by the byte count actually read. -/
def VFSRead (fd : FileDescriptor) (inode : Ext2Inode) (count : Nat) :
    FileDescriptor × Ext2Inode × Nat :=
  let readCount := inodeReadCount inode count fd.offset
  let r := RepositionOffset fd inode readCount .SeekCursor
  (r.1, r.2.1, readCount)

/-- String::Split(str, '/', &remaining) as TraversePath uses it: the token
before the first '/', and the rest after it (an empty rest when no '/'
occurs, matching the splitter leaving `remaining` at the terminator). -/
def splitFirst : List Char → List Char × List Char
  | [] => ([], [])
  | c :: rest =>
    if c = '/' then ([], rest)
    else
      let (t, r) := splitFirst rest
      (c :: t, r)

/-- The component loop of TraversePath (VFS.cpp:26-44); one recursion step
per remainingPathDepth decrement, entered with depth = Count('/') + 1 ≥ 1.
Each step splits off the next token, scans the current directory listing for
the first name match, and — per the source's KAssert — halts when an entry
other than the last cannot be found.  The depth-0 branch is the loop exit
and is never entered from TraversePath. -/
def TraverseLoop (fs : Ext2FS) : Nat → List Char → Nat → VNode →
    Except String (VNode × Bool × List Char)
  | 0, _, _, last => .ok (last, false, [])
  | depth + 1, remaining, currentInode, last =>
    let (tok, rest) := splitFirst remaining
    match ((fs.inodes currentInode).dirListing).find? (fun v => v.name = tok) with
    | some v =>
      if depth = 0 then .ok (v, true, tok)
      else TraverseLoop fs depth rest v.inodeNum v
    | none =>
      if depth = 0 then .ok (last, false, tok)
      else .error "Directory entry could not be found while traversing path."

/-- TraversePath (VFS.cpp:10-55): assert that the absolute path begins at
root (first token empty), set remainingPathDepth = Count('/', remaining) + 1,
and run the component loop from the root directory inode 2 with
lastVNode = ("", 2).  Returns (vnode, exists, finalPathToken). -/
def TraversePath (fs : Ext2FS) (absolutePath : List Char) :
    Except String (VNode × Bool × List Char) :=
  let s := splitFirst absolutePath
  if s.1 ≠ [] then .error "Absolute path does not begin at root."
  else TraverseLoop fs (s.2.count '/' + 1) s.2 2 ⟨[], 2⟩

/-- The spec's description of path traversal (§4.3), for comparison with
TraversePath: walk the components from the root; every component resolves →
the final vnode with exists = true; exactly the final one fails → the parent
directory vnode with the unresolved name and exists = false; an intermediate
one fails → the kernel assertion fires (this last arm is the amended
behaviour: the source halts instead of returning NotFound). -/
def SpecTraverse (fs : Ext2FS) : Nat → VNode → List (List Char) →
    Except String (VNode × Bool × List Char)
  | _, last, [] => .ok (last, false, [])
  | cur, last, [tok] =>
    match ((fs.inodes cur).dirListing).find? (fun v => v.name = tok) with
    | some v => .ok (v, true, tok)
    | none => .ok (last, false, tok)
  | cur, _, tok :: rest =>
    match ((fs.inodes cur).dirListing).find? (fun v => v.name = tok) with
    | some v => SpecTraverse fs v.inodeNum v rest
    | none => .error "Directory entry could not be found while traversing path."

/-- Join path components with '/' separators (the inverse of the splitting
TraversePath performs); an absolute path is '/' followed by this. -/
def joinComponents : List (List Char) → List Char
  | [] => []
  | [c] => c
  | c :: rest => c ++ '/' :: joinComponents rest

/-- VFSOpenFlag bits (VFS.h is not under src/; the numeric values are
immaterial to every claim — only which bit is tested matters). -/
def OCreate : Nat := 1

def OTruncate : Nat := 2

def OAppend : Nat := 4

/-- The ext2 regular-file bit of typePermissions (Ext2.h's
InodeTypePermissions is not under src/; 0x8000 is the ext2 on-disk
regular-file type bit of the spec's on-disk shape). -/
def RegularFileBit : Nat := 0x8000

/-- The descriptor-allocation scan of Open (VFS.cpp:109-123).  The C++ loop
has no break: it marks EVERY non-present slot present as it walks the table
and leaves descriptorIndex at the LAST such slot; i is the index of the
first element of the list being examined.  Returns the rewritten table and
the index found (none when every slot was present). -/
def OpenScan : List FileDescriptor → Nat → List FileDescriptor × Option Nat
  | [], _ => ([], none)
  | d :: rest, i =>
    let (rest', j) := OpenScan rest (i + 1)
    if d.present then (d :: rest', j)
    else ({ d with present := true } :: rest', some (j.getD i))

/-- Modelled from the spec: Ext2Inode::Create (not under src/): "create
appends a new entry in the last slot … and allocates a fresh inode from the
inode-usage bitmap".  Allocates fs.nextFreeInode, appends (name → it) to the
directory's listing, installs a fresh empty regular file there, and returns
the new inode number. -/
def Ext2Create (fs : Ext2FS) (dirInodeNum : Nat) (name : List Char) :
    Ext2FS × Nat :=
  let n := fs.nextFreeInode
  ({ inodes := fun i =>
       if i = n then { typePermissions := RegularFileBit }
       else if i = dirInodeNum then
         let d := fs.inodes dirInodeNum
         { d with dirListing := d.dirListing ++ [⟨name, n⟩] }
       else fs.inodes i
     nextFreeInode := n + 1 }, n)

/-- Open (VFS.cpp:101-151): run the descriptor-allocation scan (appending
{true, 0, null} when it found no free slot), traverse the path, store the
resulting vnode in the chosen slot, materialize the file on OCreate when it
did not exist (TraversePath then returned the parent directory), set
size0 := 0 on OTruncate when the inode GetInode fetched before the create is
a regular file, and seek the descriptor to the end on OAppend.  Returns the
descriptor table, the file system and the returned descriptor index. -/
def Open (path : List Char) (flags : Nat) (table : List FileDescriptor)
    (fs : Ext2FS) : Except String (List FileDescriptor × Ext2FS × Nat) :=
  let scan := OpenScan table 0
  let table1 : List FileDescriptor :=
    match scan.2 with
    | some _ => scan.1
    | none => scan.1 ++ [{ present := true, offset := 0, vNode := none }]
  let descriptorIndex :=
    match scan.2 with
    | some i => i
    | none => scan.1.length
  match TraversePath fs path with
  | .error msg => .error msg
  | .ok (vnode0, exists0, filename) =>
    let table2 := table1.set descriptorIndex
        { (table1.getD descriptorIndex {}) with vNode := some vnode0 }
    let inodeNum0 := vnode0.inodeNum
    let created :=
      if flags &&& OCreate ≠ 0 ∧ exists0 = false then
        let r := Ext2Create fs inodeNum0 filename
        (r.1, table2.set descriptorIndex
          { (table2.getD descriptorIndex {}) with vNode := some ⟨filename, r.2⟩ })
      else (fs, table2)
    let fs1 := created.1
    let table3 := created.2
    let fs2 :=
      if flags &&& OTruncate ≠ 0 ∧
          (fs1.inodes inodeNum0).typePermissions &&& RegularFileBit ≠ 0 then
        { fs1 with inodes := fun i =>
            if i = inodeNum0 then { fs1.inodes inodeNum0 with size0 := 0 }
            else fs1.inodes i }
      else fs1
    let final :=
      if flags &&& OAppend ≠ 0 then
        let fd := table3.getD descriptorIndex {}
        let rr := RepositionOffset fd (fs2.inodes inodeNum0) 0 .SeekEnd
        (table3.set descriptorIndex rr.1,
         { fs2 with inodes := fun i =>
             if i = inodeNum0 then rr.2.1 else fs2.inodes i })
      else (table3, fs2)
    .ok (final.1, final.2, descriptorIndex)

/-- The kernel error enum (Error.h is not under src/).  Modelled from the
spec's §7 error kinds, None = 0 first. -/
inductive Error where
  | None
  | NotFound
  | NotSupported
  | InvalidArgument
  | NoSuchDescriptor
  | AccessDenied
  | OutOfMemory
  | InvalidFormat
  | IoError
  | WouldBlock
deriving DecidableEq

/-- The numeric value of an error kind as cast by InterruptHandlers.cpp:56. -/
def errorCode : Error → Nat
  | .None => 0
  | .NotFound => 1
  | .NotSupported => 2
  | .InvalidArgument => 3
  | .NoSuchDescriptor => 4
  | .AccessDenied => 5
  | .OutOfMemory => 6
  | .InvalidFormat => 7
  | .IoError => 8
  | .WouldBlock => 9

/-- SystemCallHandler (InterruptHandlers.cpp:46-58): the interrupt-0x80
entry reads the call number from the frame's rax and the six arguments from
rdi, rsi, rdx, rcx, r8, r9; the dispatcher proper (SystemCall, which spans
the whole kernel) is abstracted as the function argument returning the
64-bit result and the error out-parameter.  The result is written into the
frame's rax, and overwritten with the two's-complement negation of the
error kind when one is reported. -/
def SystemCallHandler
    (sysCall : Nat → Nat → Nat → Nat → Nat → Nat → Nat → Nat × Error)
    (frame : InterruptFrame) : InterruptFrame :=
  let r := sysCall frame.rax frame.rdi frame.rsi frame.rdx frame.rcx frame.r8
      frame.r9
  if r.2 = Error.None then { frame with rax := r.1 % 2 ^ 64 }
  else { frame with rax := (2 ^ 64 - errorCode r.2) % 2 ^ 64 }

/-- RTDL_ADDR (ELFLoader.cpp:13). -/
def RTDL_ADDR : Nat := 0x40000000

/-- USER_STACK_BASE (ELFLoader.cpp:10). -/
def USER_STACK_BASE : Nat := 0x800000000000 - 0x1000

/-- The ELF64 header fields the loader examines (ELF.h is not under src/;
this is the standard ELF64 Ehdr field set ELFLoader.cpp reads).  typ 2 =
Executable, 3 = Shared. -/
structure ELFHeader where
  magic0 : Nat
  magic1 : Nat
  magic2 : Nat
  magic3 : Nat
  typ : Nat
  entry : Nat
  programHeaderTableEntrySize : Nat
  programHeaderTableEntryCount : Nat
deriving DecidableEq

/-- sizeof(ProgramHeader): the standard ELF64 program header is 56 bytes. -/
def PROGRAM_HEADER_SIZE : Nat := 56

mutual
/-- A parsed ELF image: its header and its program headers, each reduced to
what the loader's switch distinguishes (an Interpreter header carries the
recursively loaded interpreter image the path names). -/
inductive ELFImage where
  | mk : ELFHeader → List ELFSeg → ELFImage

/-- One program header as the loader's switch sees it. -/
inductive ELFSeg where
  | load : ELFSeg
  | phTable : Nat → ELFSeg
  | interp : ELFImage → ELFSeg
  | other : ELFSeg
end

mutual
/-- ELFLoader::LoadELF (ELFLoader.cpp:15-132).  entry/stackPtr are the
by-reference outputs, threaded as the two Nat inputs and the result pair;
file reading is abstracted away — the parsed image is the input.  Modelled:
the magic / program-header-size / type asserts, the program-header loop
(Load's page mapping writes only into the new address space, which no claim
observes), the interpreter recursion with hasDynamicLinking, the Shared
entry bias, and the Executable entry/stack-pointer arithmetic (13 pushed
words: 10 auxv, 1 envp terminator, 1 argv terminator, argc). -/
def LoadELF : ELFImage → Nat → Nat → Except String (Nat × Nat)
  | .mk h segs, entry0, stack0 =>
    if ¬(h.magic0 = 0x7f ∧ h.magic1 = 0x45 ∧ h.magic2 = 0x4c ∧ h.magic3 = 0x46) then
      .error "Assert failed: ELF magic"
    else if h.programHeaderTableEntrySize ≠ PROGRAM_HEADER_SIZE then
      .error "Assert failed: programHeaderTableEntrySize == sizeof(ProgramHeader)"
    else if ¬(h.typ = 2 ∨ h.typ = 3) then
      .error "Assert failed: type is Executable or Shared"
    else
      match LoadSegs segs entry0 stack0 false 0 with
      | .error msg => .error msg
      | .ok (entry1, stack1, hasDyn, _) =>
        if h.typ = 3 then .ok ((RTDL_ADDR + h.entry) % 2 ^ 64, stack1)
        else
          let pushedWords : Nat := if hasDyn then 13 else 0
          let entry2 := if hasDyn then entry1 else h.entry
          .ok (entry2, USER_STACK_BASE - 8 * pushedWords)

/-- The program-header for-loop of LoadELF (ELFLoader.cpp:42-75), threading
entry, stackPtr, hasDynamicLinking and programHeaderTableAddr. -/
def LoadSegs : List ELFSeg → Nat → Nat → Bool → Nat →
    Except String (Nat × Nat × Bool × Nat)
  | [], e, s, dyn, ph => .ok (e, s, dyn, ph)
  | .load :: rest, e, s, dyn, ph => LoadSegs rest e s dyn ph
  | .phTable a :: rest, e, s, dyn, _ => LoadSegs rest e s dyn a
  | .interp img :: rest, e, s, _, ph =>
    match LoadELF img e s with
    | .error msg => .error msg
    | .ok (e', s') => LoadSegs rest e' s' true ph
  | .other :: rest, e, s, dyn, ph => LoadSegs rest e s dyn ph
end

/-- A directory inode for the Ext2 directory scan: size0 and the on-disk
content bytes. -/
structure DirInode where
  size0 : Nat
  byteAt : Nat → Nat

/-- Modelled from the spec: one byte obtained through Ext2Inode::Read (the
Ext2Inode implementation is not under src/): reads stop at the inode size,
so a byte at or past size0 is never transferred — the scan's claims only
examine in-bounds reads, and an untransferred byte is modelled as 0. -/
def readByte (d : DirInode) (i : Nat) : Nat :=
  if i < d.size0 then d.byteAt i else 0

/-- The inode field of the Ext2DirectoryEntry at byte offset pos
(Ext2.cpp:69-75): u32, little-endian. -/
def entryInodeAt (d : DirInode) (pos : Nat) : Nat :=
  readByte d pos + 256 * readByte d (pos + 1) + 256 ^ 2 * readByte d (pos + 2)
    + 256 ^ 3 * readByte d (pos + 3)

/-- The entry_size field at byte offset pos + 4: u16, little-endian. -/
def entrySizeAt (d : DirInode) (pos : Nat) : Nat :=
  readByte d (pos + 4) + 256 * readByte d (pos + 5)

/-- The name_len_low byte at offset pos + 6. -/
def nameLenAt (d : DirInode) (pos : Nat) : Nat := readByte d (pos + 6)

/-- Ext2::ConstructVNode (Ext2.cpp:100-114): the name bytes after the 8-byte
entry header are copied and NUL-terminated; the VNode constructor re-measures
them with String::Length, so the stored name stops at the first 0 byte. -/
def ConstructVNode (d : DirInode) (pos : Nat) : VNode :=
  { name := (((List.range (nameLenAt d pos)).map
        (fun i => readByte d (pos + 8 + i))).takeWhile (fun b => b ≠ 0)).map
        Char.ofNat
    inodeNum := entryInodeAt d pos }

/-- The while-loop of Ext2::GetDirectoryListing (Ext2.cpp:117-144), with
explicit fuel — one unit per iteration; none means the C++ loop has not
terminated within that many iterations.  Each iteration reads the entry at
parsedLength, pushes its VNode when the inode number is non-zero, and
advances parsedLength by the on-disk entry_size field. -/
def DirScan (d : DirInode) : Nat → Nat → Option (List VNode)
  | 0, pos => if pos < d.size0 then none else some []
  | fuel + 1, pos =>
    if pos < d.size0 then
      match DirScan d fuel (pos + entrySizeAt d pos) with
      | none => none
      | some rest =>
        some (if entryInodeAt d pos ≠ 0 then ConstructVNode d pos :: rest else rest)
    else some []

/-- One on-disk directory entry as a record; its byte extent on disk is
entry_size bytes — header, name, padding. -/
structure RawEntry where
  inodeNum : Nat
  entrySize : Nat
  typeIndicator : Nat
  nameBytes : List Nat
deriving DecidableEq

/-- Well-formedness of one on-disk entry: the fields fit their on-disk
widths, the declared extent holds the 8-byte header and the name (an entry
that cannot even contain its own header and name has no on-disk layout),
and the name bytes are non-NUL bytes. -/
def WfEntry (e : RawEntry) : Prop :=
  e.inodeNum < 2 ^ 32 ∧ e.entrySize < 2 ^ 16 ∧
    8 + e.nameBytes.length ≤ e.entrySize ∧ e.nameBytes.length < 256 ∧
    ∀ b ∈ e.nameBytes, 0 < b ∧ b < 256

/-- The directory inode d holds, from byte offset pos up to its size, the
given on-disk entries in order: each decodes at its position (fields and
name bytes) and occupies entry_size bytes, and the last one ends exactly at
size0. -/
def Represents (d : DirInode) : Nat → List RawEntry → Prop
  | pos, [] => pos = d.size0
  | pos, e :: rest =>
    WfEntry e ∧
    pos + e.entrySize ≤ d.size0 ∧
    entryInodeAt d pos = e.inodeNum ∧
    entrySizeAt d pos = e.entrySize ∧
    nameLenAt d pos = e.nameBytes.length ∧
    (∀ i < e.nameBytes.length, readByte d (pos + 8 + i) = e.nameBytes.getD i 0) ∧
    Represents d (pos + e.entrySize) rest

/-- The VNode an on-disk entry denotes. -/
def EntryVNode (e : RawEntry) : VNode :=
  ⟨e.nameBytes.map Char.ofNat, e.inodeNum⟩

theorem unblock_ok_split (q : List Task) (pid : Nat) (q' : List Task)
    (h : Scheduler.Unblock q pid = .ok q') :
    ∃ pre t post, q = pre ++ t :: post ∧ (∀ u ∈ pre, u.pid ≠ pid) ∧
      t.pid = pid ∧ t.state = TaskState.Blocked ∧
      q' = pre ++ { t with state := TaskState.Normal } :: post := by
  induction q generalizing q' with
  | nil => simp [Scheduler.Unblock] at h
  | cons t rest ih =>
    by_cases hp : t.pid = pid
    · by_cases hs : t.state = TaskState.Blocked
      · simp only [Scheduler.Unblock, hp, if_true, hs, Except.ok.injEq] at h
        exact ⟨[], t, rest, by simp, by simp, hp, hs, by simp [← h, hp]⟩
      · simp [Scheduler.Unblock, hp, hs] at h
    · simp only [Scheduler.Unblock, hp, if_false] at h
      cases hrest : Scheduler.Unblock rest pid with
      | error e => rw [hrest] at h; simp at h
      | ok r =>
        rw [hrest] at h
        simp only [Except.ok.injEq] at h
        obtain ⟨pre, u, post, hq, hpre, hup, hus, hr⟩ := ih r hrest
        exact ⟨t :: pre, u, post, by simp [hq], by
          intro x hx
          rcases List.mem_cons.mp hx with hx | hx
          · exact hx ▸ hp
          · exact hpre x hx, hup, hus, by simp [← h, hr]⟩

theorem unsuspend_ok_split (q : List Task) (pid v : Nat) (q' : List Task)
    (h : Scheduler.Unsuspend q pid v = .ok q') :
    ∃ pre t post, q = pre ++ t :: post ∧ (∀ u ∈ pre, u.pid ≠ pid) ∧
      t.pid = pid ∧
      (t.state = TaskState.Blocked ∨ t.state = TaskState.WaitingForChild) ∧
      q' = pre ++ { t with state := TaskState.Normal,
                           frame := { t.frame with rax := v } } :: post := by
  induction q generalizing q' with
  | nil => simp [Scheduler.Unsuspend] at h
  | cons t rest ih =>
    by_cases hp : t.pid = pid
    · by_cases hs : t.state = TaskState.Blocked ∨ t.state = TaskState.WaitingForChild
      · simp only [Scheduler.Unsuspend, hp, if_true, hs, Except.ok.injEq] at h
        exact ⟨[], t, rest, by simp, by simp, hp, hs, by simp [← h, hp]⟩
      · simp [Scheduler.Unsuspend, hp, hs] at h
    · simp only [Scheduler.Unsuspend, hp, if_false] at h
      cases hrest : Scheduler.Unsuspend rest pid v with
      | error e => rw [hrest] at h; simp at h
      | ok r =>
        rw [hrest] at h
        simp only [Except.ok.injEq] at h
        obtain ⟨pre, u, post, hq, hpre, hup, hus, hr⟩ := ih r hrest
        exact ⟨t :: pre, u, post, by simp [hq], by
          intro x hx
          rcases List.mem_cons.mp hx with hx | hx
          · exact hx ▸ hp
          · exact hpre x hx, hup, hus, by simp [← h, hr]⟩

/-- Claim C8: unblock(pid) turns the first task with that pid — which must be
Blocked — back to Normal and leaves its entire saved interrupt frame (rax
included) unchanged, while unsuspend(pid, value) turns a Blocked or
WaitingForChild task back to Normal and changes exactly the rax register of
its saved frame to value.  Both leave every other task untouched. -/
theorem C8_unblock_unsuspend (q : List Task) (pid v : Nat) :
    (∀ q1, Scheduler.Unblock q pid = .ok q1 →
      ∃ pre t post, q = pre ++ t :: post ∧ (∀ u ∈ pre, u.pid ≠ pid) ∧
        t.pid = pid ∧ t.state = TaskState.Blocked ∧
        q1 = pre ++ { t with state := TaskState.Normal } :: post) ∧
    (∀ q2, Scheduler.Unsuspend q pid v = .ok q2 →
      ∃ pre t post, q = pre ++ t :: post ∧ (∀ u ∈ pre, u.pid ≠ pid) ∧
        t.pid = pid ∧
        (t.state = TaskState.Blocked ∨ t.state = TaskState.WaitingForChild) ∧
        q2 = pre ++ { t with state := TaskState.Normal,
                             frame := { t.frame with rax := v } } :: post) :=
  ⟨fun q1 h => unblock_ok_split q pid q1 h,
   fun q2 h => unsuspend_ok_split q pid v q2 h⟩

/-- Witness for C8 on a concrete two-task queue: unblocking pid 7 flips its
state to Normal with an untouched frame; unsuspending delivers 99 into rax. -/
theorem C8_unblock_unsuspend_witness :
    (∃ pre t post,
      ([⟨3, .Normal, {}, 0, 0⟩, ⟨7, .Blocked, { rax := 55 }, 0, 0⟩] : List Task)
        = pre ++ t :: post ∧ (∀ u ∈ pre, u.pid ≠ 7) ∧
      t.pid = 7 ∧ t.state = TaskState.Blocked ∧
      [⟨3, .Normal, {}, 0, 0⟩, ⟨7, .Normal, { rax := 55 }, 0, 0⟩]
        = pre ++ { t with state := TaskState.Normal } :: post) ∧
    (∃ pre t post,
      ([⟨3, .Normal, {}, 0, 0⟩, ⟨7, .Blocked, { rax := 55 }, 0, 0⟩] : List Task)
        = pre ++ t :: post ∧ (∀ u ∈ pre, u.pid ≠ 7) ∧
      t.pid = 7 ∧
      (t.state = TaskState.Blocked ∨ t.state = TaskState.WaitingForChild) ∧
      [⟨3, .Normal, {}, 0, 0⟩, ⟨7, .Normal, { rax := 99 }, 0, 0⟩]
        = pre ++ { t with state := TaskState.Normal,
                          frame := { t.frame with rax := 99 } } :: post) := by
  have h := C8_unblock_unsuspend
    [⟨3, .Normal, {}, 0, 0⟩, ⟨7, .Blocked, { rax := 55 }, 0, 0⟩] 7 99
  exact ⟨h.1 _ rfl, h.2 _ rfl⟩

/-- Claim C1, code evaluation at the failing input: on the run queue
[pid 1 Normal, pid 2 Normal, pid 3 Normal] with no frame to save,
SwitchToNextTask switches to pid 3 — not the first Normal task, pid 1 — and
leaves only pid 2 in the queue: pid 1 was popped as well and is lost.  The
claimed selection of the first Normal task, with only it removed, does not
hold on the code (the selection loop has no break). -/
theorem C1_switch_selects_last_normal :
    (Scheduler.SwitchToNextTask
        { currentTask := { pid := 0 }, restoreFrame := false,
          taskQueue := [{ pid := 1 }, { pid := 2 }, { pid := 3 }],
          timerEntries := [], currentTimerTime := 100,
          idleTask := { pid := 0 }, nextPid := 4 } 50 {}).map
        (fun r => (r.1.currentTask.pid, r.1.taskQueue.map Task.pid,
          r.1.restoreFrame, r.1.currentTimerTime))
      = .ok (3, [2], true, 100) := rfl

/-- Claim C3, code evaluation at the failing input: forking a parent whose
system-call stack spans [HigherHalf 0x100000, HigherHalf 0x103000), with the
fresh child stack block at physical 0x200000, does set the child's saved rax
to 0, enqueue the child, bump the pid counter and return the child's pid,
and does byte-copy the parent's stack onto the child's own pages — but the
child's syscallStackAddr (the top pointer the TSS is loaded with on every
switch to the child) is left equal to the PARENT's stack top, which is not
the top of the child's own copy. -/
theorem C3_fork_stack_alias :
    (fun r =>
        (r.2.2,
         r.1.taskQueue.map (fun t => (t.pid, t.state, t.frame.rax, t.frame.rip,
           t.syscallStackAddr, t.syscallStackBottom)),
         r.2.1 (HigherHalf 0x200000), r.2.1 (HigherHalf 0x200000 + 12287),
         r.1.nextPid))
      (Scheduler.ForkCurrentTask
        { currentTask :=
            ⟨5, .Normal, {}, HigherHalf 0x103000, HigherHalf 0x100000⟩,
          restoreFrame := true, taskQueue := [], timerEntries := [],
          currentTimerTime := 100, idleTask := { pid := 0 }, nextPid := 9 }
        (fun a => a % 251) { rax := 77, rip := 4096 } 0x200000)
      = (9,
         [(9, TaskState.Normal, 0, 4096, HigherHalf 0x103000,
           HigherHalf 0x200000)],
         HigherHalf 0x100000 % 251, (HigherHalf 0x100000 + 12287) % 251,
         10) ∧
    HigherHalf 0x103000 ≠ HigherHalf 0x200000 + SYSCALL_STACK_SIZE := by
  exact ⟨rfl, by decide⟩

/-- Claim C7: the interrupt-0x80 handler reads the call number and the six
arguments from the frame, writes the dispatcher's result into the frame's
rax and leaves every other register alone; when an error kind e ≠ None is
reported, the value written is the two's-complement negation of e — a
negative value as a signed 64-bit quantity — and a non-negative rax
(below 2^63) can only denote success. -/
theorem C7_syscall_error_encoding
    (sysCall : Nat → Nat → Nat → Nat → Nat → Nat → Nat → Nat × Error)
    (frame : InterruptFrame) (ret : Nat) (err : Error)
    (hcall : sysCall frame.rax frame.rdi frame.rsi frame.rdx frame.rcx
        frame.r8 frame.r9 = (ret, err)) :
    SystemCallHandler sysCall frame
      = { frame with rax := if err = Error.None then ret % 2 ^ 64
                            else (2 ^ 64 - errorCode err) % 2 ^ 64 } ∧
    (err ≠ Error.None →
      (SystemCallHandler sysCall frame).rax = 2 ^ 64 - errorCode err ∧
      1 ≤ errorCode err ∧ errorCode err ≤ 4095 ∧
      2 ^ 63 ≤ (SystemCallHandler sysCall frame).rax) ∧
    ((SystemCallHandler sysCall frame).rax < 2 ^ 63 → err = Error.None) := by
  have e64 : (2:Nat) ^ 64 = 18446744073709551616 := by norm_num
  have e63 : (2:Nat) ^ 63 = 9223372036854775808 := by norm_num
  by_cases he : err = Error.None
  · subst he
    exact ⟨by simp [SystemCallHandler, hcall], fun hne => absurd rfl hne,
      fun _ => rfl⟩
  · have hb : 1 ≤ errorCode err ∧ errorCode err ≤ 4095 := by
      cases err <;> simp_all [errorCode]
    have hmod : (2 ^ 64 - errorCode err) % 2 ^ 64 = 2 ^ 64 - errorCode err := by
      apply Nat.mod_eq_of_lt
      rw [e64]
      omega
    have hmain : SystemCallHandler sysCall frame
        = { frame with rax := (2 ^ 64 - errorCode err) % 2 ^ 64 } := by
      simp [SystemCallHandler, hcall, he]
    have hrax : (SystemCallHandler sysCall frame).rax
        = 2 ^ 64 - errorCode err := by
      rw [hmain, hmod]
    refine ⟨by rw [hmain]; simp [he], fun _ => ⟨hrax, hb.1, hb.2, ?_⟩,
      fun hlt => ?_⟩
    · rw [hrax, e63, e64]
      omega
    · exfalso
      rw [hrax, e63, e64] at hlt
      omega

/-- Witness for C7 at a concrete dispatch returning NotFound: the written
rax is the two's-complement negation of the NotFound code. -/
theorem C7_syscall_error_encoding_witness :
    (SystemCallHandler (fun _ _ _ _ _ _ _ => (0, Error.NotFound)) {}).rax
      = 2 ^ 64 - errorCode Error.NotFound :=
  ((C7_syscall_error_encoding (fun _ _ _ _ _ _ _ => (0, Error.NotFound)) {} 0
      Error.NotFound rfl).2.1 (by decide)).1

theorem unblock_map_pid (q : List Task) (pid : Nat) (q' : List Task)
    (h : Scheduler.Unblock q pid = .ok q') :
    q'.map Task.pid = q.map Task.pid := by
  obtain ⟨pre, t, post, hq, _, _, _, hq'⟩ := unblock_ok_split q pid q' h
  subst hq
  subst hq'
  simp

theorem nodup_pid_eq {q : List Task} (h : (q.map Task.pid).Nodup)
    {a b : Task} (ha : a ∈ q) (hb : b ∈ q) (hp : a.pid = b.pid) : a = b := by
  induction q with
  | nil => cases ha
  | cons t rest ih =>
    simp only [List.map_cons, List.nodup_cons] at h
    rcases List.mem_cons.mp ha with ha' | ha' <;>
      rcases List.mem_cons.mp hb with hb' | hb'
    · rw [ha', hb']
    · exfalso
      apply h.1
      rw [ha'] at hp
      rw [hp]
      exact List.mem_map_of_mem Task.pid hb'
    · exfalso
      apply h.1
      rw [hb'] at hp
      rw [← hp]
      exact List.mem_map_of_mem Task.pid ha'
    · exact ih h.2 ha' hb'

theorem mem_unblock_of_ne (q : List Task) (pid : Nat) (q' : List Task)
    (h : Scheduler.Unblock q pid = .ok q') (t : Task) (ht : t ∈ q)
    (hne : t.pid ≠ pid) : t ∈ q' := by
  obtain ⟨pre, x, post, hq, _, hxp, _, hq'⟩ := unblock_ok_split q pid q' h
  subst hq
  subst hq'
  simp only [List.mem_append, List.mem_cons] at ht ⊢
  rcases ht with h1 | h2 | h3
  · exact Or.inl h1
  · exact absurd (by rw [h2]; exact hxp) hne
  · exact Or.inr (Or.inr h3)

theorem unblock_fails_on_normal (q q' : List Task)
    (hnodup : (q.map Task.pid).Nodup) (t : Task) (ht : t ∈ q)
    (hts : t.state = TaskState.Normal)
    (h : Scheduler.Unblock q t.pid = .ok q') : False := by
  obtain ⟨pre, x, post, hq, _, hxp, hxs, _⟩ := unblock_ok_split q t.pid q' h
  have hx : x ∈ q := by rw [hq]; simp
  have hxt : x = t := nodup_pid_eq hnodup hx ht hxp
  rw [hxt, hts] at hxs
  exact absurd hxs (by decide)

theorem unblock_sets_normal (q q' : List Task)
    (hnodup : (q.map Task.pid).Nodup) (t : Task) (ht : t ∈ q)
    (h : Scheduler.Unblock q t.pid = .ok q') :
    { t with state := TaskState.Normal } ∈ q' := by
  obtain ⟨pre, x, post, hq, _, hxp, _, hq'⟩ := unblock_ok_split q t.pid q' h
  have hx : x ∈ q := by rw [hq]; simp
  have hxt : x = t := nodup_pid_eq hnodup hx ht hxp
  rw [hq', hxt]
  simp

theorem updateLoop_ok_cases (delta : Nat) (queue : List Task) (e : TimerEntry)
    (rest : List TimerEntry) (q' : List Task) (es' : List TimerEntry)
    (h : Scheduler.UpdateLoop delta queue (e :: rest) = .ok (q', es')) :
    ∃ q1 rest', Scheduler.UpdateLoop delta queue rest = .ok (q1, rest') ∧
      ((e.milliseconds ≤ delta ∧ e.unblockOnExpire = true ∧ e.pid ≠ 0 ∧
          Scheduler.Unblock q1 e.pid = .ok q' ∧ es' = rest') ∨
       (e.milliseconds ≤ delta ∧ e.unblockOnExpire = false ∧ q' = q1 ∧
          es' = rest') ∨
       (delta < e.milliseconds ∧ q' = q1 ∧
          es' = { e with milliseconds := e.milliseconds - delta } :: rest')) := by
  cases hr : Scheduler.UpdateLoop delta queue rest with
  | error m => simp [Scheduler.UpdateLoop, hr] at h
  | ok p =>
    obtain ⟨q1, rest'⟩ := p
    refine ⟨q1, rest', rfl, ?_⟩
    simp only [Scheduler.UpdateLoop, hr] at h
    by_cases hms : e.milliseconds ≤ delta
    · by_cases hf : e.unblockOnExpire = true
      · by_cases hp0 : e.pid = 0
        · rw [if_pos hms, if_pos hf, if_pos hp0] at h
          cases h
        · rw [if_pos hms, if_pos hf, if_neg hp0] at h
          cases hu : Scheduler.Unblock q1 e.pid with
          | error m => simp [hu] at h
          | ok q2 =>
            simp only [hu, Except.ok.injEq, Prod.mk.injEq] at h
            refine Or.inl ⟨hms, hf, hp0, ?_, h.2.symm⟩
            rw [h.1]
      · rw [if_pos hms, if_neg hf] at h
        simp only [Except.ok.injEq, Prod.mk.injEq] at h
        exact Or.inr (Or.inl ⟨hms, by simpa using hf, h.1.symm, h.2.symm⟩)
    · rw [if_neg hms] at h
      simp only [Except.ok.injEq, Prod.mk.injEq] at h
      exact Or.inr (Or.inr ⟨Nat.lt_of_not_le hms, h.1.symm, h.2.symm⟩)

theorem updateLoop_map_pid (delta : Nat) (queue : List Task)
    (es : List TimerEntry) (q' : List Task) (es' : List TimerEntry)
    (h : Scheduler.UpdateLoop delta queue es = .ok (q', es')) :
    q'.map Task.pid = queue.map Task.pid := by
  induction es generalizing q' es' with
  | nil =>
    simp only [Scheduler.UpdateLoop, Except.ok.injEq, Prod.mk.injEq] at h
    rw [← h.1]
  | cons e rest ih =>
    obtain ⟨q1, rest', hr, hcase⟩ := updateLoop_ok_cases delta queue e rest q' es' h
    have hq1 := ih q1 rest' hr
    rcases hcase with ⟨_, _, _, hu, _⟩ | ⟨_, _, hq, _⟩ | ⟨_, hq, _⟩
    · rw [unblock_map_pid q1 e.pid q' hu, hq1]
    · rw [hq, hq1]
    · rw [hq, hq1]

theorem updateLoop_entries (delta : Nat) (queue : List Task)
    (es : List TimerEntry) (q' : List Task) (es' : List TimerEntry)
    (h : Scheduler.UpdateLoop delta queue es = .ok (q', es')) :
    es' = (es.filter (fun e => delta < e.milliseconds)).map
      (fun e => { e with milliseconds := e.milliseconds - delta }) := by
  induction es generalizing q' es' with
  | nil =>
    simp only [Scheduler.UpdateLoop, Except.ok.injEq, Prod.mk.injEq] at h
    rw [← h.2]
    simp
  | cons e rest ih =>
    obtain ⟨q1, rest', hr, hcase⟩ := updateLoop_ok_cases delta queue e rest q' es' h
    have hrest := ih q1 rest' hr
    rcases hcase with ⟨hms, _, _, _, hes⟩ | ⟨hms, _, _, hes⟩ | ⟨hms, _, hes⟩
    · rw [hes, hrest, List.filter_cons_of_neg (by simpa using Nat.not_lt.mpr hms)]
    · rw [hes, hrest, List.filter_cons_of_neg (by simpa using Nat.not_lt.mpr hms)]
    · rw [hes, hrest, List.filter_cons_of_pos (by simpa using hms)]
      simp

theorem updateLoop_untargeted (delta : Nat) (queue : List Task)
    (es : List TimerEntry) (q' : List Task) (es' : List TimerEntry)
    (h : Scheduler.UpdateLoop delta queue es = .ok (q', es'))
    (t : Task) (ht : t ∈ queue)
    (hno : ∀ e ∈ es, ¬(e.milliseconds ≤ delta ∧ e.unblockOnExpire = true ∧
        e.pid = t.pid)) :
    t ∈ q' := by
  induction es generalizing q' es' with
  | nil =>
    simp only [Scheduler.UpdateLoop, Except.ok.injEq, Prod.mk.injEq] at h
    rw [← h.1]
    exact ht
  | cons e rest ih =>
    obtain ⟨q1, rest', hr, hcase⟩ := updateLoop_ok_cases delta queue e rest q' es' h
    have ht1 : t ∈ q1 :=
      ih q1 rest' hr (fun e' h' => hno e' (List.mem_cons_of_mem _ h'))
    rcases hcase with ⟨hms, hf, _, hu, _⟩ | ⟨_, _, hq, _⟩ | ⟨_, hq, _⟩
    · refine mem_unblock_of_ne q1 e.pid q' hu t ht1 ?_
      intro hc
      exact hno e (List.mem_cons_self e rest) ⟨hms, hf, hc.symm⟩
    · rw [hq]; exact ht1
    · rw [hq]; exact ht1

theorem updateLoop_targeted (delta : Nat) (queue : List Task)
    (es : List TimerEntry) (q' : List Task) (es' : List TimerEntry)
    (hnodup : (queue.map Task.pid).Nodup)
    (h : Scheduler.UpdateLoop delta queue es = .ok (q', es'))
    (t : Task) (ht : t ∈ queue)
    (he : ∃ e ∈ es, e.milliseconds ≤ delta ∧ e.unblockOnExpire = true ∧
        e.pid = t.pid) :
    { t with state := TaskState.Normal } ∈ q' := by
  induction es generalizing q' es' with
  | nil => simp at he
  | cons e rest ih =>
    obtain ⟨q1, rest', hr, hcase⟩ := updateLoop_ok_cases delta queue e rest q' es' h
    have hq1pid : q1.map Task.pid = queue.map Task.pid :=
      updateLoop_map_pid delta queue rest q1 rest' hr
    have hnodup1 : (q1.map Task.pid).Nodup := by rw [hq1pid]; exact hnodup
    by_cases hrest : ∃ e' ∈ rest, e'.milliseconds ≤ delta ∧
        e'.unblockOnExpire = true ∧ e'.pid = t.pid
    · have hmem1 : { t with state := TaskState.Normal } ∈ q1 := ih q1 rest' hr hrest
      rcases hcase with ⟨_, _, _, hu, _⟩ | ⟨_, _, hq, _⟩ | ⟨_, hq, _⟩
      · by_cases hpe : e.pid = t.pid
        · exfalso
          refine unblock_fails_on_normal q1 q' hnodup1
            { t with state := TaskState.Normal } hmem1 rfl ?_
          rw [show ({ t with state := TaskState.Normal } : Task).pid = t.pid from rfl,
            ← hpe]
          exact hu
        · refine mem_unblock_of_ne q1 e.pid q' hu _ hmem1 ?_
          show t.pid ≠ e.pid
          exact fun hc => hpe hc.symm
      · rw [hq]; exact hmem1
      · rw [hq]; exact hmem1
    · obtain ⟨e0, he0mem, he0⟩ := he
      have he0head : e0 = e := by
        rcases List.mem_cons.mp he0mem with h' | h'
        · exact h'
        · exact absurd ⟨e0, h', he0⟩ hrest
      rw [he0head] at he0
      have ht1 : t ∈ q1 :=
        updateLoop_untargeted delta queue rest q1 rest' hr t ht
          (fun e' h' hc => hrest ⟨e', h', hc⟩)
      rcases hcase with ⟨_, _, _, hu, _⟩ | ⟨_, hf, _, _⟩ | ⟨hms, _, _⟩
      · refine unblock_sets_normal q1 q' hnodup1 t ht1 ?_
        rw [← he0.2.2]
        exact hu
      · rw [hf] at he0
        exact absurd he0.2.1 (by decide)
      · exact absurd he0.1 (Nat.not_le.mpr hms)

theorem closestExpiry_spec (es : List TimerEntry) :
    Scheduler.ClosestExpiry es ≤ 100 ∧
    (∀ e ∈ es, Scheduler.ClosestExpiry es ≤ e.milliseconds) ∧
    (Scheduler.ClosestExpiry es = 100 ∨
      ∃ e ∈ es, Scheduler.ClosestExpiry es = e.milliseconds) := by
  suffices hgen : ∀ init : Nat,
      (es.foldl (fun c e => if e.milliseconds < c then e.milliseconds else c)
          init ≤ init) ∧
      (∀ e ∈ es, es.foldl
          (fun c e => if e.milliseconds < c then e.milliseconds else c) init
          ≤ e.milliseconds) ∧
      (es.foldl (fun c e => if e.milliseconds < c then e.milliseconds else c)
          init = init ∨
        ∃ e ∈ es, es.foldl
          (fun c e => if e.milliseconds < c then e.milliseconds else c) init
          = e.milliseconds) by
    exact hgen 100
  induction es with
  | nil => intro init; simp
  | cons e rest ih =>
    intro init
    simp only [List.foldl_cons]
    by_cases hlt : e.milliseconds < init
    · rw [if_pos hlt]
      obtain ⟨h1, h2, h3⟩ := ih e.milliseconds
      refine ⟨le_trans h1 (le_of_lt hlt), ?_, ?_⟩
      · intro x hx
        rcases List.mem_cons.mp hx with hx' | hx'
        · rw [hx']; exact h1
        · exact h2 x hx'
      · rcases h3 with h3 | ⟨x, hx, h3⟩
        · exact Or.inr ⟨e, List.mem_cons_self e rest, h3⟩
        · exact Or.inr ⟨x, List.mem_cons_of_mem _ hx, h3⟩
    · rw [if_neg hlt]
      obtain ⟨h1, h2, h3⟩ := ih init
      refine ⟨h1, ?_, ?_⟩
      · intro x hx
        rcases List.mem_cons.mp hx with hx' | hx'
        · rw [hx']; exact le_trans h1 (Nat.not_lt.mp hlt)
        · exact h2 x hx'
      · rcases h3 with h3 | ⟨x, hx, h3⟩
        · exact Or.inl h3
        · exact Or.inr ⟨x, List.mem_cons_of_mem _ hx, h3⟩

/-- Claim C6: on entry into SwitchToNextTask the scheduler computes
elapsed = currentTimerTime − LAPIC-remaining (asserting remaining <
currentTimerTime); the surviving timer entries are exactly those with more
than elapsed left, each decremented by elapsed; every entry that reaches ≤ 0
with unblockOnExpire set causes Unblock(pid) — its Blocked task turns Normal
with an untouched frame — and is removed, while tasks targeted by no expired
entry pass through untouched; and SwitchToNextTask then arms the LAPIC
one-shot with the minimum of the smallest surviving entry and 100 ms
(100 ms when none survive). -/
theorem C6_timer_protocol (st : SchedState) (remaining : Nat)
    (frame : InterruptFrame) (q' : List Task) (es' : List TimerEntry)
    (hnodup : (st.taskQueue.map Task.pid).Nodup)
    (h : Scheduler.UpdateTimerEntries st remaining = .ok (q', es')) :
    remaining < st.currentTimerTime ∧
    es' = (st.timerEntries.filter
        (fun e => st.currentTimerTime - remaining < e.milliseconds)).map
        (fun e => { e with
          milliseconds := e.milliseconds - (st.currentTimerTime - remaining) }) ∧
    (∀ t ∈ st.taskQueue,
      (∃ e ∈ st.timerEntries,
          e.milliseconds ≤ st.currentTimerTime - remaining ∧
          e.unblockOnExpire = true ∧ e.pid = t.pid) →
        { t with state := TaskState.Normal } ∈ q') ∧
    (∀ t ∈ st.taskQueue,
      (∀ e ∈ st.timerEntries,
          ¬(e.milliseconds ≤ st.currentTimerTime - remaining ∧
            e.unblockOnExpire = true ∧ e.pid = t.pid)) →
        t ∈ q') ∧
    (∀ st' f', Scheduler.SwitchToNextTask st remaining frame = .ok (st', f') →
      st'.timerEntries = es' ∧
      st'.currentTimerTime ≤ 100 ∧
      (∀ e ∈ es', st'.currentTimerTime ≤ e.milliseconds) ∧
      (st'.currentTimerTime = 100 ∨
        ∃ e ∈ es', st'.currentTimerTime = e.milliseconds)) := by
  have hlt : remaining < st.currentTimerTime := by
    by_contra hc
    simp [Scheduler.UpdateTimerEntries, Nat.le_of_not_lt hc] at h
  have hloop : Scheduler.UpdateLoop (st.currentTimerTime - remaining)
      st.taskQueue st.timerEntries = .ok (q', es') := by
    simpa [Scheduler.UpdateTimerEntries, Nat.not_le.mpr hlt] using h
  refine ⟨hlt, updateLoop_entries _ _ _ _ _ hloop,
    fun t ht he => updateLoop_targeted _ _ _ _ _ hnodup hloop t ht he,
    fun t ht hno => updateLoop_untargeted _ _ _ _ _ hloop t ht hno,
    fun st' f' hsw => ?_⟩
  rw [Scheduler.SwitchToNextTask, h] at hsw
  simp only [Except.ok.injEq, Prod.mk.injEq] at hsw
  obtain ⟨hst', _⟩ := hsw
  have hent : st'.timerEntries = es' := by rw [← hst']
  have hct : st'.currentTimerTime = Scheduler.ClosestExpiry es' := by rw [← hst']
  obtain ⟨c1, c2, c3⟩ := closestExpiry_spec es'
  rw [hent, hct]
  exact ⟨rfl, c1, c2, c3⟩

/-- Witness for C6 on a concrete state: one Blocked task pid 1, one expired
5 ms entry targeting it, 10 ms armed, 3 ms remaining — the surviving entry
list is empty. -/
theorem C6_timer_protocol_witness :
    ([] : List TimerEntry) = (([⟨5, true, 1⟩] : List TimerEntry).filter
        (fun e => 10 - 3 < e.milliseconds)).map
        (fun e => { e with milliseconds := e.milliseconds - (10 - 3) }) :=
  (C6_timer_protocol
    { currentTask := ⟨0, .Normal, {}, 0, 0⟩, restoreFrame := false,
      taskQueue := [⟨1, .Blocked, {}, 0, 0⟩], timerEntries := [⟨5, true, 1⟩],
      currentTimerTime := 10, idleTask := ⟨0, .Normal, {}, 0, 0⟩,
      nextPid := 2 } 3 {} [⟨1, .Normal, {}, 0, 0⟩] [] (by decide) rfl).2.1

theorem splitFirst_no_slash (c : List Char) (hc : '/' ∉ c) :
    splitFirst c = (c, []) := by
  induction c with
  | nil => rfl
  | cons a rest ih =>
    simp only [List.mem_cons, not_or] at hc
    have ha : ¬(a = '/') := fun hh => hc.1 (by rw [hh])
    simp only [splitFirst, if_neg ha, ih hc.2]

theorem splitFirst_append (c r : List Char) (hc : '/' ∉ c) :
    splitFirst (c ++ '/' :: r) = (c, r) := by
  induction c with
  | nil => simp [splitFirst]
  | cons a rest ih =>
    simp only [List.mem_cons, not_or] at hc
    have ha : ¬(a = '/') := fun hh => hc.1 (by rw [hh])
    simp [List.cons_append, splitFirst, if_neg ha, ih hc.2]

theorem count_joinComponents (comps : List (List Char))
    (h : ∀ c ∈ comps, '/' ∉ c) (hne : comps ≠ []) :
    (joinComponents comps).count '/' = comps.length - 1 := by
  induction comps with
  | nil => cases hne rfl
  | cons c rest ih =>
    cases rest with
    | nil =>
      simp only [joinComponents, List.length_cons, List.length_nil]
      exact List.count_eq_zero.mpr (h c (List.mem_cons_self c []))
    | cons d rest' =>
      have hc : (joinComponents (c :: d :: rest')) = c ++ '/' :: joinComponents (d :: rest') := rfl
      rw [hc, List.count_append]
      have h0 : c.count '/' = 0 :=
        List.count_eq_zero.mpr (h c (List.mem_cons_self c (d :: rest')))
      have hrest := ih (fun x hx => h x (List.mem_cons_of_mem c hx)) (by simp)
      rw [h0, List.count_cons_self, hrest]
      simp

theorem traverseLoop_eq_spec (fs : Ext2FS) (comps : List (List Char))
    (hne : comps ≠ []) (hsl : ∀ c ∈ comps, '/' ∉ c) :
    ∀ cur last, TraverseLoop fs comps.length (joinComponents comps) cur last
      = SpecTraverse fs cur last comps := by
  induction comps with
  | nil => cases hne rfl
  | cons c rest ih =>
    intro cur last
    cases rest with
    | nil =>
      have hs : splitFirst (joinComponents [c]) = (c, []) :=
        splitFirst_no_slash c (hsl c (by simp))
      show TraverseLoop fs (0 + 1) (joinComponents [c]) cur last = _
      cases hfind : ((fs.inodes cur).dirListing).find? (fun v => v.name = c) with
      | none => simp [TraverseLoop, SpecTraverse, hs, hfind]
      | some v => simp [TraverseLoop, SpecTraverse, hs, hfind]
    | cons d rest' =>
      have hs : splitFirst (joinComponents (c :: d :: rest'))
          = (c, joinComponents (d :: rest')) :=
        splitFirst_append c (joinComponents (d :: rest')) (hsl c (by simp))
      show TraverseLoop fs ((d :: rest').length + 1) _ cur last = _
      cases hfind : ((fs.inodes cur).dirListing).find? (fun v => v.name = c) with
      | none =>
        simp [TraverseLoop, SpecTraverse, hs, hfind]
      | some v =>
        have hrec := ih (by simp) (fun x hx => hsl x (List.mem_cons_of_mem c hx))
          v.inodeNum v
        simp only [TraverseLoop, SpecTraverse, hs, hfind, List.length_cons,
          Nat.succ_ne_zero, if_false, ite_false]
        exact hrec

/-- Claim C4, counterexample to the claim as stated: on a file system whose
root contains only "a", opening path "/x/y" fails on the intermediate
component "x" — and TraversePath halts the kernel on its KAssert instead of
returning a NotFound error (its return type has no error-kind channel at
all). -/
theorem C4_traverse_counterexample :
    TraversePath
      { inodes := fun i => if i = 2 then { dirListing := [⟨['a'], 5⟩] } else {},
        nextFreeInode := 6 }
      ['/', 'x', '/', 'y']
      = .error "Directory entry could not be found while traversing path." := rfl

/-- Claim C4 as amended: for every absolute path /c1/…/cn (components free of
separators), TraversePath agrees with the spec-side traversal SpecTraverse:
all components resolve → the final vnode with exists = true; only the final
component fails → the parent directory vnode with the unresolved name and
exists = false; an intermediate component fails → the kernel assertion fires
(the kernel halts) rather than returning the error NotFound. -/
theorem C4_traverse_amended (fs : Ext2FS) (comps : List (List Char))
    (hne : comps ≠ []) (hsl : ∀ c ∈ comps, '/' ∉ c) :
    TraversePath fs ('/' :: joinComponents comps)
      = SpecTraverse fs 2 ⟨[], 2⟩ comps := by
  have hs : splitFirst ('/' :: joinComponents comps)
      = ([], joinComponents comps) := by simp [splitFirst]
  have hcount := count_joinComponents comps hsl hne
  have hlen : (joinComponents comps).count '/' + 1 = comps.length := by
    rw [hcount]
    have := List.length_pos.mpr hne
    omega
  simp only [TraversePath, hs, ne_eq, not_true_eq_false, if_false, ite_false,
    not_false_eq_true, hlen]
  exact traverseLoop_eq_spec fs comps hne hsl 2 ⟨[], 2⟩

/-- Witness for the amended C4 on a concrete file system: "/a" resolves to
the vnode ("a", 5). -/
theorem C4_traverse_amended_witness :
    TraversePath
      { inodes := fun i => if i = 2 then { dirListing := [⟨['a'], 5⟩] } else {},
        nextFreeInode := 6 }
      ('/' :: joinComponents [['a']])
      = SpecTraverse
        { inodes := fun i => if i = 2 then { dirListing := [⟨['a'], 5⟩] } else {},
          nextFreeInode := 6 } 2 ⟨[], 2⟩ [['a']] :=
  C4_traverse_amended _ [['a']] (by simp) (by simp)

/-- Claim C2, code evaluation at the failing input: with two free slots in
the descriptor table, Open of "/a" marks BOTH slots present and returns
descriptor 1 — not the lowest free slot 0, and not leaving the other slot
untouched (the allocation scan has no break). -/
theorem C2_open_marks_all_free_slots :
    (Open ['/', 'a'] 0 [{}, {}]
        { inodes := fun i => if i = 2 then { dirListing := [⟨['a'], 5⟩] } else {},
          nextFreeInode := 6 }).map
      (fun r => (r.2.2, r.1.map (fun d => (d.present, d.offset, d.vNode))))
      = .ok (1, [(true, 0, none), (true, 0, some ⟨['a'], 5⟩)]) := rfl

/-- Claim C5: repositioning a descriptor past the inode's size does not by
itself grow the file — size0 is unchanged, whatever the seek type — and the
gap [old size, new offset) reads back 0 bytes until the next write; that
write extends size0 to cover its end, after which every gap byte reads back
as exactly one zero byte. -/
theorem C5_seek_past_end (fd : FileDescriptor) (inode : Ext2Inode)
    (offset : Nat) (seekType : VFSSeekType) (fd' : FileDescriptor)
    (inode' : Ext2Inode) (newOff : Nat)
    (hr : RepositionOffset fd inode offset seekType = (fd', inode', newOff))
    (hpast : inode.size0 < newOff) :
    inode'.size0 = inode.size0 ∧
    fd'.offset = newOff ∧
    (∀ k, inode.size0 ≤ k → inodeReadCount inode' 1 k = 0) ∧
    (∀ buf n, 0 < n →
      (VFSWrite fd' inode' buf n).2.1.size0 = newOff + n ∧
      ∀ k, inode.size0 ≤ k → k < newOff →
        (VFSWrite fd' inode' buf n).2.1.data k = 0 ∧
        inodeReadCount (VFSWrite fd' inode' buf n).2.1 1 k = 1) := by
  have hkey : fd' = { fd with offset := newOff } ∧
      inode' = inodeWrite inode none (newOff - inode.size0) inode.size0 false := by
    cases seekType <;>
    · simp only [RepositionOffset, Prod.mk.injEq] at hr
      obtain ⟨h1, h2, h3⟩ := hr
      subst h3
      exact ⟨h1.symm, by rw [← h2, if_pos hpast]⟩
  obtain ⟨hfd, hin⟩ := hkey
  have hsize : inode'.size0 = inode.size0 := by
    rw [hin]
    simp [inodeWrite]
  have hdata : ∀ k, inode.size0 ≤ k → k < newOff → inode'.data k = 0 := by
    intro k h1 h2
    rw [hin]
    simp only [inodeWrite]
    rw [if_pos]
    omega
  refine ⟨hsize, by rw [hfd], ?_, ?_⟩
  · intro k hk
    simp only [inodeReadCount, hsize]
    rw [if_neg]
    omega
  · intro buf n hn
    have hoff : fd'.offset = newOff := by rw [hfd]
    have hineq : (inodeWrite inode' (some buf) n newOff true).size0
        = newOff + n := by
      simp only [inodeWrite]
      rw [if_pos ⟨by trivial, by rw [hsize]; omega⟩]
    have hw : (VFSWrite fd' inode' buf n).2.1
        = inodeWrite inode' (some buf) n newOff true := by
      simp only [VFSWrite, RepositionOffset, hoff]
      rw [if_neg (by rw [hineq]; omega)]
    have hwsize : (VFSWrite fd' inode' buf n).2.1.size0 = newOff + n := by
      rw [hw, hineq]
    refine ⟨hwsize, fun k h1 h2 => ⟨?_, ?_⟩⟩
    · rw [hw]
      simp only [inodeWrite]
      rw [if_neg (by omega)]
      exact hdata k h1 h2
    · simp only [inodeReadCount, hwsize]
      rw [if_pos (by omega)]
      omega

/-- Witness for C5: a 2-byte file sought to offset 5; the gap write leaves
size0 at 2. -/
theorem C5_seek_past_end_witness :
    (inodeWrite (⟨0, 2, fun _ => 7, []⟩ : Ext2Inode) none 3 2 false).size0
      = (⟨0, 2, fun _ => 7, []⟩ : Ext2Inode).size0 :=
  (C5_seek_past_end {} ⟨0, 2, fun _ => 7, []⟩ 5 .SeekSet ⟨false, 5, none⟩
    (inodeWrite ⟨0, 2, fun _ => 7, []⟩ none 3 2 false) 5 rfl (by decide)).1

/-- Claim C9: the ELF loader accepts an image only when its first four bytes
are 7F 45 4C 46, its program-header entry size equals sizeof(ProgramHeader)
and its type is Executable (2) or Shared (3); and every accepted image of
type Shared returns the entry point RTDL_ADDR + header.entry (as a 64-bit
value). -/
theorem C9_elf_validation (h : ELFHeader) (segs : List ELFSeg) (e0 s0 : Nat)
    (r : Nat × Nat) (hok : LoadELF (.mk h segs) e0 s0 = .ok r) :
    ((h.magic0 = 0x7f ∧ h.magic1 = 0x45 ∧ h.magic2 = 0x4c ∧ h.magic3 = 0x46) ∧
      h.programHeaderTableEntrySize = PROGRAM_HEADER_SIZE ∧
      (h.typ = 2 ∨ h.typ = 3)) ∧
    (h.typ = 3 → r.1 = (RTDL_ADDR + h.entry) % 2 ^ 64) := by
  rw [LoadELF] at hok
  by_cases hm : h.magic0 = 0x7f ∧ h.magic1 = 0x45 ∧ h.magic2 = 0x4c ∧
      h.magic3 = 0x46
  case neg =>
    rw [if_pos hm] at hok
    cases hok
  rw [if_neg (not_not_intro hm)] at hok
  by_cases hp : h.programHeaderTableEntrySize = PROGRAM_HEADER_SIZE
  case neg =>
    rw [if_pos hp] at hok
    cases hok
  rw [if_neg (not_not_intro hp)] at hok
  by_cases ht : h.typ = 2 ∨ h.typ = 3
  case neg =>
    rw [if_pos ht] at hok
    cases hok
  rw [if_neg (not_not_intro ht)] at hok
  refine ⟨⟨hm, hp, ht⟩, fun h3 => ?_⟩
  cases hls : LoadSegs segs e0 s0 false 0 with
  | error m => rw [hls] at hok; cases hok
  | ok p =>
    obtain ⟨e1, s1, dyn, ph⟩ := p
    rw [hls] at hok
    simp only at hok
    rw [if_pos h3] at hok
    have := Except.ok.inj hok
    rw [← this]

/-- Witness for C9: a Shared image with entry 0x1000 and no program headers
is accepted and returns entry 0x40001000. -/
theorem C9_elf_validation_witness :
    (((0x7f = 0x7f ∧ 0x45 = 0x45 ∧ 0x4c = 0x4c ∧ 0x46 = 0x46) ∧
      (56 : Nat) = PROGRAM_HEADER_SIZE ∧ ((3 : Nat) = 2 ∨ (3 : Nat) = 3)) ∧
     ((3 : Nat) = 3 →
       ((0x40001000 : Nat), (0 : Nat)).1 = (RTDL_ADDR + 0x1000) % 2 ^ 64)) :=
  C9_elf_validation ⟨0x7f, 0x45, 0x4c, 0x46, 3, 0x1000, 56, 0⟩ [] 0 0
    (0x40001000, 0) (by rfl)

theorem takeWhile_pos_bytes (l : List Nat) (h : ∀ b ∈ l, 0 < b) :
    l.takeWhile (fun b => b ≠ 0) = l := by
  induction l with
  | nil => rfl
  | cons a rest ih =>
    have ha : 0 < a := h a (List.mem_cons_self a rest)
    rw [List.takeWhile_cons_of_pos (by simpa using Nat.pos_iff_ne_zero.mp ha)]
    rw [ih (fun b hb => h b (List.mem_cons_of_mem a hb))]

theorem dirScan_represents (d : DirInode) (entries : List RawEntry) :
    ∀ pos, Represents d pos entries → ∀ fuel, entries.length ≤ fuel →
      DirScan d fuel pos
        = some ((entries.filter (fun e => e.inodeNum ≠ 0)).map EntryVNode) := by
  induction entries with
  | nil =>
    intro pos hrep fuel _
    have hpos : ¬(pos < d.size0) := by
      rw [show pos = d.size0 from hrep]
      omega
    cases fuel with
    | zero => simp [DirScan, hpos]
    | succ f => simp [DirScan, hpos]
  | cons e rest ih =>
    intro pos hrep fuel hfuel
    obtain ⟨hwf, hle, hinode, hsize, hname, hbytes, hrest⟩ := hrep
    have hes : 8 ≤ e.entrySize := le_trans (by omega) hwf.2.2.1
    cases fuel with
    | zero => simp at hfuel
    | succ f =>
      have hpos : pos < d.size0 := by omega
      have hrec := ih (pos + e.entrySize) hrest f (by simpa using hfuel)
      rw [DirScan, if_pos hpos, hsize]
      simp only [hrec]
      have hcv : ConstructVNode d pos = EntryVNode e := by
        have hlist : (List.range (nameLenAt d pos)).map
            (fun i => readByte d (pos + 8 + i)) = e.nameBytes := by
          rw [hname]
          apply List.ext_getElem
          · simp
          · intro i hi hi'
            simp only [List.getElem_map, List.getElem_range]
            rw [hbytes i (by simpa using hi)]
            exact List.getD_eq_getElem e.nameBytes 0 hi'
        simp only [ConstructVNode, EntryVNode, hinode, hlist,
          takeWhile_pos_bytes e.nameBytes (fun b hb => (hwf.2.2.2.2 b hb).1)]
      rw [hinode, hcv]
      by_cases hi : e.inodeNum = 0
      · rw [if_neg (not_not_intro hi),
          List.filter_cons_of_neg (by simp [hi])]
      · rw [if_pos hi, List.filter_cons_of_pos (by simpa using hi)]
        simp

theorem dirScan_zero_stride (d : DirInode) (pos : Nat) (hpos : pos < d.size0)
    (hz : entrySizeAt d pos = 0) : ∀ fuel, DirScan d fuel pos = none := by
  intro fuel
  induction fuel with
  | zero => simp [DirScan, hpos]
  | succ f ih =>
    rw [DirScan, if_pos hpos, hz]
    simp [ih]

/-- Claim C10: for a directory inode whose on-disk entries (each one holding
its own 8-byte header and name within its entry_size extent, hence
entry_size ≥ 1) tile the inode from offset 0 to exactly size0, the
GetDirectoryListing scan terminates within one iteration per entry and
returns exactly the entries with a non-zero inode number, in on-disk order,
advancing by entry_size strides; and at any position whose entry_size field
is 0 the scan never advances, so it never terminates. -/
theorem C10_directory_scan (d : DirInode) (entries : List RawEntry)
    (hrep : Represents d 0 entries) :
    (∀ fuel, entries.length ≤ fuel →
      DirScan d fuel 0
        = some ((entries.filter (fun e => e.inodeNum ≠ 0)).map EntryVNode)) ∧
    (∀ p, p < d.size0 → entrySizeAt d p = 0 →
      ∀ fuel, DirScan d fuel p = none) :=
  ⟨fun fuel hf => dirScan_represents d entries 0 hrep fuel hf,
   fun p hp hz fuel => dirScan_zero_stride d p hp hz fuel⟩

/-- Witness for C10 on a concrete two-entry directory (a free slot with
inode 0 followed by "a" with inode 5): the scan returns exactly ("a", 5). -/
theorem C10_directory_scan_witness :
    DirScan
      ⟨22, fun i => [0, 0, 0, 0, 12, 0, 1, 1, 46, 0, 0, 0,
        5, 0, 0, 0, 10, 0, 1, 2, 97, 0].getD i 0⟩ 2 0
      = some ((([⟨0, 12, 1, [46]⟩, ⟨5, 10, 2, [97]⟩] : List RawEntry).filter
          (fun e => e.inodeNum ≠ 0)).map EntryVNode) :=
  (C10_directory_scan
    ⟨22, fun i => [0, 0, 0, 0, 12, 0, 1, 1, 46, 0, 0, 0,
      5, 0, 0, 0, 10, 0, 1, 2, 97, 0].getD i 0⟩
    [⟨0, 12, 1, [46]⟩, ⟨5, 10, 2, [97]⟩]
    (by simp only [Represents, WfEntry]; decide)).1 2 (by decide)

end MiskOS
